import Mathlib

/-!
Shallow embedding of the query-execution gateway of the agent-mark backend:
the read-only SQL validator and the connection pool (src/services/trinoService.js),
the fingerprinting query cache (the CacheService routed through src/routes/chatRoutes.js),
and the forecast merge / linear-regression fallback of the chat controller
(src/unnamed/part_002).  JavaScript strings are modelled as Lean `String`s
(lists of characters), JS numbers as exact rationals `ℚ` (the numeric values in
every claim are small integers on which IEEE doubles are exact), timestamps as
natural-number milliseconds, and JS `Map` objects as insertion-ordered
association lists, which is exactly the iteration/insertion-order semantics the
code relies on.
-/

namespace AgentMark

/-! ### JavaScript character and string primitives -/

/-- Character class of the JS regex `\s` (also the set trimmed by
`String.prototype.trim`): tab, line feed, vertical tab, form feed, carriage
return, space, no-break space, ogham space mark, the en/em spaces, line and
paragraph separators, narrow no-break space, medium mathematical space,
ideographic space and the BOM. -/
def isJsSpace (c : Char) : Bool :=
  [9, 10, 11, 12, 13, 32, 160, 0x1680, 0x2000, 0x2001, 0x2002, 0x2003, 0x2004,
   0x2005, 0x2006, 0x2007, 0x2008, 0x2009, 0x200a, 0x2028, 0x2029, 0x202f,
   0x205f, 0x3000, 0xfeff].contains c.toNat

/-- Case-insensitive keyword match followed by one whitespace character: the
tail of the regexes `/^\s*VERB\s/i` after the leading `\s*` has been consumed.
The keyword is given in lower case; input characters are case-folded with
`Char.toLower`, which is the ASCII folding the `i` flag performs on these
all-ASCII verbs. -/
def kwMatch : List Char → List Char → Bool
  | [], [] => false
  | [], c :: _ => isJsSpace c
  | _ :: _, [] => false
  | k :: ks, c :: cs => c.toLower == k && kwMatch ks cs

/-- Whether `sql` matches `/^\s*VERB\s/i`: the leading `\s*` consumes the
maximal whitespace run (the verbs start with letters, so no other split of the
regex can match). -/
def testVerb (verb : List Char) (sql : String) : Bool :=
  kwMatch verb (sql.toList.dropWhile isJsSpace)

/-- The write/DDL verbs of `forbiddenPatterns` in `validateReadOnly`
(src/services/trinoService.js). -/
def forbiddenVerbs : List (List Char) :=
  ["insert".toList, "update".toList, "delete".toList, "drop".toList,
   "create".toList, "alter".toList, "truncate".toList, "grant".toList,
   "revoke".toList, "merge".toList]

/-- The read-only verbs of `allowedPatterns` in `validateReadOnly`. -/
def allowedVerbs : List (List Char) :=
  ["select".toList, "with".toList, "show".toList, "describe".toList,
   "explain".toList]

/-- Message of the error thrown when a forbidden pattern matches. -/
def writeForbiddenMsg : String :=
  "Only SELECT queries are allowed. Write operations are forbidden."

/-- Message of the error thrown when no allowed pattern matches. -/
def notPermittedMsg : String :=
  "Only SELECT, SHOW, DESCRIBE, and EXPLAIN queries are allowed."

/-- `TrinoService.validateReadOnly` (src/services/trinoService.js lines 43-65):
throw on the first matching forbidden pattern, then throw unless some allowed
pattern matches, else return `true`.  Thrown errors are modelled as
`Except.error` carrying the message. -/
def validateReadOnly (sql : String) : Except String Bool :=
  if forbiddenVerbs.any (fun v => testVerb v sql) then
    .error writeForbiddenMsg
  else if allowedVerbs.any (fun v => testVerb v sql) then
    .ok true
  else
    .error notPermittedMsg

/-- The claim's reading of "begins, after optional leading whitespace and
ignoring case, with the verb": a plain case-folded prefix, with no condition on
what follows the verb.  Stated from the claim's words, to be compared with the
code's `testVerb`. -/
def beginsWith : List Char → List Char → Bool
  | [], _ => true
  | _ :: _, [] => false
  | k :: ks, c :: cs => c.toLower == k && beginsWith ks cs

/-- The claim's "SQL string begins with the verb" predicate, whitespace and
case being ignored as the claim states. -/
def beginsWithVerb (verb : List Char) (sql : String) : Bool :=
  beginsWith verb (sql.toList.dropWhile isJsSpace)

/-- Syntactic mutual-exclusion test on two lower-case keywords: they disagree
at some position before either ends.  Sufficient for no string to match both
(`kwMatch_excl`); it holds for every allowed/forbidden verb pair. -/
def kwExcl : List Char → List Char → Bool
  | a :: as, b :: bs => if a = b then kwExcl as bs else true
  | _, _ => false

theorem kwMatch_excl :
    ∀ (v w s : List Char), kwExcl v w = true → kwMatch v s = true →
      kwMatch w s = false := by
  intro v
  induction v with
  | nil => intro w s h; simp [kwExcl] at h
  | cons a as ih =>
    intro w s h hm
    match w with
    | [] => simp [kwExcl] at h
    | b :: bs =>
      match s with
      | [] => simp [kwMatch] at hm
      | c :: cs =>
        simp only [kwMatch, Bool.and_eq_true, beq_iff_eq] at hm
        simp only [kwExcl] at h
        by_cases hab : a = b
        · simp only [if_pos hab] at h
          simp [kwMatch, ih bs cs h hm.2]
        · simp only [kwMatch]
          rw [hm.1]
          simp [beq_eq_false_iff_ne.mpr hab]

theorem allowed_forbidden_excl :
    ∀ v ∈ allowedVerbs, ∀ w ∈ forbiddenVerbs, kwExcl v w = true := by decide

instance {ε α : Type} [DecidableEq ε] [DecidableEq α] : DecidableEq (Except ε α)
  | .ok a, .ok b =>
    if h : a = b then isTrue (h ▸ rfl)
    else isFalse (fun hc => h (Except.ok.inj hc))
  | .ok _, .error _ => isFalse (fun hc => Except.noConfusion hc)
  | .error _, .ok _ => isFalse (fun hc => Except.noConfusion hc)
  | .error a, .error b =>
    if h : a = b then isTrue (h ▸ rfl)
    else isFalse (fun hc => h (Except.error.inj hc))

theorem forbidden_any_eq_false {sql : String} {v : List Char}
    (hv : v ∈ allowedVerbs) (hm : testVerb v sql = true) :
    forbiddenVerbs.any (fun w => testVerb w sql) = false := by
  rw [List.any_eq_false]
  intro w hw
  have hx := allowed_forbidden_excl v hv w hw
  simpa [testVerb] using kwMatch_excl v w _ hx (by simpa [testVerb] using hm)

/-- Claim C1 (amended): classification of `validateReadOnly`.  A statement
whose first token is a forbidden write/DDL verb followed by a whitespace
character fails with the write-operation-forbidden reason regardless of any
trailing content; one whose first token is an allowed read verb followed by a
whitespace character validates; and a statement matching neither verb list
fails with the statement-type-not-permitted reason.  (The code's regexes
`/^\s*VERB\s/i` demand a whitespace character after the verb, so a bare verb
such as `"SELECT"` is not accepted — see `validateReadOnly_bare_verb_cex`.) -/
theorem validateReadOnly_classification (sql : String) :
    ((∃ v ∈ forbiddenVerbs, testVerb v sql = true) →
        validateReadOnly sql = .error writeForbiddenMsg) ∧
    ((∃ v ∈ allowedVerbs, testVerb v sql = true) →
        validateReadOnly sql = .ok true) ∧
    ((∀ v ∈ forbiddenVerbs ++ allowedVerbs, testVerb v sql = false) →
        validateReadOnly sql = .error notPermittedMsg) := by
  refine ⟨fun h => ?_, fun h => ?_, fun h => ?_⟩
  · have ha : forbiddenVerbs.any (fun w => testVerb w sql) = true :=
      List.any_eq_true.mpr (by
        obtain ⟨v, hv, hm⟩ := h
        exact ⟨v, hv, hm⟩)
    simp [validateReadOnly, ha]
  · obtain ⟨v, hv, hm⟩ := h
    have hf := forbidden_any_eq_false hv hm
    have ha : allowedVerbs.any (fun w => testVerb w sql) = true :=
      List.any_eq_true.mpr ⟨v, hv, hm⟩
    simp [validateReadOnly, hf, ha]
  · have hf : forbiddenVerbs.any (fun w => testVerb w sql) = false := by
      rw [List.any_eq_false]
      intro w hw
      simp [h w (List.mem_append.mpr (Or.inl hw))]
    have ha : allowedVerbs.any (fun w => testVerb w sql) = false := by
      rw [List.any_eq_false]
      intro w hw
      simp [h w (List.mem_append.mpr (Or.inr hw))]
    simp [validateReadOnly, hf, ha]

/-- Claim C1 counterexample: the string `"SELECT"` begins (after optional
leading whitespace, ignoring case) with the verb `select`, yet validation does
not succeed: the regex demands a whitespace character after the verb, so the
statement falls through to the statement-type-not-permitted rejection. -/
theorem validateReadOnly_bare_verb_cex :
    beginsWithVerb ("select".toList) "SELECT" = true ∧
    validateReadOnly "SELECT" = .error notPermittedMsg := by decide

/-- Witness for `validateReadOnly_classification` at concrete inputs: a write
statement with trailing content, a mixed-case select, and an unclassifiable
string. -/
theorem validateReadOnly_classification_wit :
    validateReadOnly "DROP TABLE x; SELECT 1" = .error writeForbiddenMsg ∧
    validateReadOnly "  sElEcT 1" = .ok true ∧
    validateReadOnly "foo" = .error notPermittedMsg :=
  ⟨(validateReadOnly_classification "DROP TABLE x; SELECT 1").1
      ⟨"drop".toList, by decide, by decide⟩,
   (validateReadOnly_classification "  sElEcT 1").2.1
      ⟨"select".toList, by decide, by decide⟩,
   (validateReadOnly_classification "foo").2.2 (by decide)⟩

/-! ### MD5 (crypto.createHash('md5') of RFC 1321), over ASCII byte strings -/

/-- Per-round left-rotation amounts of MD5. -/
def md5Shift : List Nat :=
  [7, 12, 17, 22, 7, 12, 17, 22, 7, 12, 17, 22, 7, 12, 17, 22,
   5, 9, 14, 20, 5, 9, 14, 20, 5, 9, 14, 20, 5, 9, 14, 20,
   4, 11, 16, 23, 4, 11, 16, 23, 4, 11, 16, 23, 4, 11, 16, 23,
   6, 10, 15, 21, 6, 10, 15, 21, 6, 10, 15, 21, 6, 10, 15, 21]

/-- The 64 sine-derived constants of MD5. -/
def md5K : List Nat :=
  [0xd76aa478, 0xe8c7b756, 0x242070db, 0xc1bdceee,
   0xf57c0faf, 0x4787c62a, 0xa8304613, 0xfd469501,
   0x698098d8, 0x8b44f7af, 0xffff5bb1, 0x895cd7be,
   0x6b901122, 0xfd987193, 0xa679438e, 0x49b40821,
   0xf61e2562, 0xc040b340, 0x265e5a51, 0xe9b6c7aa,
   0xd62f105d, 0x02441453, 0xd8a1e681, 0xe7d3fbc8,
   0x21e1cde6, 0xc33707d6, 0xf4d50d87, 0x455a14ed,
   0xa9e3e905, 0xfcefa3f8, 0x676f02d9, 0x8d2a4c8a,
   0xfffa3942, 0x8771f681, 0x6d9d6122, 0xfde5380c,
   0xa4beea44, 0x4bdecfa9, 0xf6bb4b60, 0xbebfbc70,
   0x289b7ec6, 0xeaa127fa, 0xd4ef3085, 0x04881d05,
   0xd9d4d039, 0xe6db99e5, 0x1fa27cf8, 0xc4ac5665,
   0xf4292244, 0x432aff97, 0xab9423a7, 0xfc93a039,
   0x655b59c3, 0x8f0ccc92, 0xffeff47d, 0x85845dd1,
   0x6fa87e4f, 0xfe2ce6e0, 0xa3014314, 0x4e0811a1,
   0xf7537e82, 0xbd3af235, 0x2ad7d2bb, 0xeb86d391]

/-- 32-bit truncation. -/
def w32 (x : Nat) : Nat := x % 2 ^ 32

/-- 32-bit bitwise complement (for `x < 2^32`). -/
def not32 (x : Nat) : Nat := 2 ^ 32 - 1 - x

/-- 32-bit left rotation. -/
def rotl32 (x n : Nat) : Nat := w32 (x <<< n) ||| (x >>> (32 - n))

/-- Little-endian byte decomposition of `x` into `n` bytes. -/
def toLEBytes (n x : Nat) : List Nat :=
  (List.range n).map (fun i => x / 256 ^ i % 256)

/-- The 32-bit message word `g` of a 64-byte chunk (little-endian). -/
def md5Word (chunk : List Nat) (g : Nat) : Nat :=
  chunk.getD (4 * g) 0 + 256 * chunk.getD (4 * g + 1) 0 +
    65536 * chunk.getD (4 * g + 2) 0 + 16777216 * chunk.getD (4 * g + 3) 0

/-- One of the 64 MD5 operations, acting on the state `(A, B, C, D)`. -/
def md5Step (chunk : List Nat) (st : Nat × Nat × Nat × Nat) (i : Nat) :
    Nat × Nat × Nat × Nat :=
  let a := st.1
  let b := st.2.1
  let c := st.2.2.1
  let d := st.2.2.2
  let fg : Nat × Nat :=
    if i < 16 then ((b &&& c) ||| (not32 b &&& d), i)
    else if i < 32 then ((d &&& b) ||| (not32 d &&& c), (5 * i + 1) % 16)
    else if i < 48 then (b ^^^ c ^^^ d, (3 * i + 5) % 16)
    else (c ^^^ (b ||| not32 d), (7 * i) % 16)
  let f := w32 (fg.1 + a + md5K.getD i 0 + md5Word chunk fg.2)
  (d, w32 (b + rotl32 f (md5Shift.getD i 0)), b, c)

/-- Process one padded 64-byte chunk, updating the running digest state. -/
def md5Chunk (st : Nat × Nat × Nat × Nat) (chunk : List Nat) :
    Nat × Nat × Nat × Nat :=
  let r := (List.range 64).foldl (md5Step chunk) st
  (w32 (st.1 + r.1), w32 (st.2.1 + r.2.1), w32 (st.2.2.1 + r.2.2.1),
   w32 (st.2.2.2 + r.2.2.2))

/-- MD5 padding: a `0x80` byte, zeros up to 56 mod 64, then the bit length as
a little-endian 64-bit integer. -/
def md5Pad (m : List Nat) : List Nat :=
  m ++ [0x80] ++ List.replicate ((120 - (m.length + 1) % 64) % 64) 0 ++
    toLEBytes 8 (m.length * 8)

/-- Split a list into 64-byte chunks. -/
def chunks64 (l : List Nat) : List (List Nat) :=
  (List.range ((l.length + 63) / 64)).map (fun i => (l.drop (64 * i)).take 64)

/-- Lower-case hexadecimal digit. -/
def hexDigit (n : Nat) : Char :=
  if n < 10 then Char.ofNat (48 + n) else Char.ofNat (87 + n)

/-- Lower-case hexadecimal rendering of a byte list. -/
def bytesToHex (bs : List Nat) : List Char :=
  bs.foldr (fun b acc => hexDigit (b / 16) :: hexDigit (b % 16) :: acc) []

/-- MD5 digest of a byte string, as the usual 32-character lower-case hex. -/
def md5Bytes (m : List Nat) : String :=
  let st := (chunks64 (md5Pad m)).foldl md5Chunk
    (0x67452301, 0xefcdab89, 0x98badcfe, 0x10325476)
  String.mk (bytesToHex
    (toLEBytes 4 st.1 ++ toLEBytes 4 st.2.1 ++ toLEBytes 4 st.2.2.1 ++
     toLEBytes 4 st.2.2.2))

/-- MD5 of a string, reading each character as one byte; this agrees with
node's utf8 hashing on the ASCII strings the claims use. -/
def md5Hex (s : String) : String :=
  md5Bytes (s.toList.map Char.toNat)

/-! ### Insertion-ordered maps (the JS `Map` semantics the code relies on) -/

/-- `Map.prototype.get`: the value of the first (and, with unique keys, only)
entry for `k`. -/
def mapGet {α : Type} (k : String) (m : List (String × α)) : Option α :=
  (m.find? (fun p => p.1 == k)).map (fun p => p.2)

/-- `Map.prototype.set`: replace in place if the key is present (JS `Map.set`
keeps the original insertion position), else append. -/
def mapSet {α : Type} (k : String) (v : α) (m : List (String × α)) :
    List (String × α) :=
  if m.any (fun p => p.1 == k) then
    m.map (fun p => if p.1 == k then (k, v) else p)
  else m ++ [(k, v)]

/-- `Map.prototype.delete`. -/
def mapDelete {α : Type} (k : String) (m : List (String × α)) :
    List (String × α) :=
  m.filter (fun p => p.1 != k)

/-- Keys of an insertion-ordered map, in order. -/
def mapKeys {α : Type} (m : List (String × α)) : List String :=
  m.map (fun p => p.1)

/-! ### CacheService (the cacheService module routed through
src/routes/chatRoutes.js) -/

/-- `String.prototype.trim`: strip leading and trailing JS whitespace.
Interior whitespace is untouched. -/
def jsTrim (s : String) : String :=
  String.mk
    (((s.toList.dropWhile isJsSpace).reverse.dropWhile isJsSpace).reverse)

/-- `String.prototype.toLowerCase`, restricted to the ASCII folding of
`Char.toLower` (the strings in the claims are ASCII). -/
def jsToLower (s : String) : String :=
  String.mk (s.toList.map Char.toLower)

/-- The normalised query text `sql.trim().toLowerCase()` hashed by
`CacheService.generateKey`. -/
def normalizeSql (sql : String) : String :=
  jsToLower (jsTrim sql)

/-- `CacheService.generateKey`:
`crypto.createHash('md5').update(sql.trim().toLowerCase()).digest('hex')`. -/
def generateKey (sql : String) : String :=
  md5Hex (normalizeSql sql)

/-- One stored cache entry `{ value, expiresAt, createdAt }`. -/
structure CacheEntry (α : Type) where
  value : α
  expiresAt : Nat
  createdAt : Nat
deriving DecidableEq

/-- The mutable state of `CacheService`: the insertion-ordered entry map and
the hit/miss statistics.  `maxSize` is a constructor constant (1000); it is a
field here so that theorems quantify over it. -/
structure CacheState (α : Type) where
  entries : List (String × CacheEntry α)
  maxSize : Nat
  hits : Nat
  misses : Nat
deriving DecidableEq

/-- The freshly constructed `CacheService`: empty map, `maxSize = 1000`,
zeroed statistics.  The default TTL is 300000 ms. -/
def initCache (α : Type) : CacheState α := ⟨[], 1000, 0, 0⟩

/-- `CacheService.get(sql)` at time `now` (ms): a missing entry counts a miss;
an entry past its `expiresAt` is deleted and counts a miss; otherwise the value
is returned and a hit is counted. -/
def cacheGet {α : Type} (sql : String) (now : Nat) (st : CacheState α) :
    Option α × CacheState α :=
  match mapGet (generateKey sql) st.entries with
  | none => (none, { st with misses := st.misses + 1 })
  | some item =>
    if now > item.expiresAt then
      (none, { st with entries := mapDelete (generateKey sql) st.entries,
                       misses := st.misses + 1 })
    else
      (some item.value, { st with hits := st.hits + 1 })

/-- Deletion of the first key in insertion order,
`this.cache.delete(this.cache.keys().next().value)`; on an empty map the first
key is `undefined` and the delete is a no-op. -/
def evictOldest {α : Type} (m : List (String × α)) : List (String × α) :=
  match m with
  | [] => []
  | e :: _ => mapDelete e.1 m

/-- `CacheService.set(sql, value, ttl)` at time `now` (ms): when the map is at
(or beyond) `maxSize`, delete the first key in insertion order, then insert the
new entry with `expiresAt = now + ttl`. -/
def cacheSet {α : Type} (sql : String) (v : α) (ttl now : Nat)
    (st : CacheState α) : CacheState α :=
  { st with
    entries :=
      mapSet (generateKey sql) ⟨v, now + ttl, now⟩
        (if st.entries.length ≥ st.maxSize then evictOldest st.entries
         else st.entries) }

/-- Storing a list of queries in order with a fixed value, TTL and clock (the
capacity scenario of claim C3). -/
def storeAll {α : Type} (v : α) (ttl now : Nat) (qs : List String)
    (st : CacheState α) : CacheState α :=
  qs.foldl (fun s q => cacheSet q v ttl now s) st

/-- An empty cache whose capacity is `m` (the `CacheState` reachable by the
constructor has `m = 1000`). -/
def mkCache (α : Type) (m : Nat) : CacheState α := ⟨[], m, 0, 0⟩

/-! ### Lemmas about the insertion-ordered map operations -/

theorem not_mem_mapKeys {α : Type} {k : String} {m : List (String × α)}
    (h : k ∉ mapKeys m) : ∀ p ∈ m, (p.1 == k) = false := by
  intro p hp
  rw [beq_eq_false_iff_ne]
  intro hc
  exact h (List.mem_map.mpr ⟨p, hp, hc⟩)

theorem mapGet_cons_ne {α : Type} {k : String} {p : String × α}
    (m : List (String × α)) (h : (p.1 == k) = false) :
    mapGet k (p :: m) = mapGet k m := by
  unfold mapGet
  simp [List.find?, h]

theorem mapGet_mapSet_self {α : Type} (k : String) (v : α)
    (m : List (String × α)) :
    mapGet k (mapSet k v m) = some v := by
  induction m with
  | nil => simp [mapGet, mapSet]
  | cons p m ih =>
    cases hpk : p.1 == k with
    | true =>
      have hany : (p :: m).any (fun q => q.1 == k) = true := by
        simp [List.any_cons, hpk]
      unfold mapSet
      rw [if_pos hany]
      simp only [List.map_cons, if_pos hpk]
      unfold mapGet
      rw [List.find?_cons_of_pos _ (by simp)]
      rfl
    | false =>
      have hmap : mapSet k v (p :: m) = p :: mapSet k v m := by
        unfold mapSet
        by_cases ha : m.any (fun q => q.1 == k) = true
        · rw [if_pos (by simp [List.any_cons, hpk, ha]), if_pos ha]
          simp only [List.map_cons]
          congr 1
          rw [if_neg (by simp [hpk])]
        · rw [if_neg (by simp only [List.any_cons, hpk, Bool.false_or]; exact ha),
            if_neg ha]
          simp
      rw [hmap, mapGet_cons_ne _ hpk]
      exact ih

theorem mapGet_mapDelete_self {α : Type} (k : String)
    (m : List (String × α)) :
    mapGet k (mapDelete k m) = none := by
  induction m with
  | nil => rfl
  | cons p m ih =>
    unfold mapGet mapDelete at *
    cases hpk : p.1 == k with
    | true =>
      rw [List.filter_cons_of_neg (by simp [bne, hpk])]
      exact ih
    | false =>
      rw [List.filter_cons_of_pos (by simp [bne, hpk]),
        List.find?_cons_of_neg _ (by simp [hpk])]
      exact ih

theorem mapGet_eq_none_of_not_mem {α : Type} {k : String}
    {m : List (String × α)} (h : k ∉ mapKeys m) : mapGet k m = none := by
  induction m with
  | nil => rfl
  | cons p m ih =>
    have hpk := not_mem_mapKeys h p (List.mem_cons_self p m)
    have hrest : k ∉ mapKeys m := by
      intro hc
      obtain ⟨q, hq, hqk⟩ := List.mem_map.mp hc
      exact h (List.mem_map.mpr ⟨q, List.mem_cons_of_mem p hq, hqk⟩)
    unfold mapGet at *
    simpa [List.find?, hpk] using ih hrest

theorem mapSet_of_not_mem {α : Type} (k : String) (v : α)
    {m : List (String × α)} (h : k ∉ mapKeys m) :
    mapSet k v m = m ++ [(k, v)] := by
  unfold mapSet
  rw [if_neg]
  intro ha
  obtain ⟨p, hp, hb⟩ := List.any_eq_true.mp ha
  rw [not_mem_mapKeys h p hp] at hb
  exact Bool.false_ne_true hb

theorem mapDelete_cons_of_not_mem {α : Type} {e : String × α}
    {rest : List (String × α)} (h : e.1 ∉ mapKeys rest) :
    mapDelete e.1 (e :: rest) = rest := by
  unfold mapDelete
  rw [List.filter_cons]
  have he : (e.1 != e.1) = false := by simp
  rw [he]
  simp only [Bool.false_eq_true, if_neg (fun hc => Bool.false_ne_true hc)]
  apply List.filter_eq_self.mpr
  intro p hp
  simp [bne, not_mem_mapKeys h p hp]

/-! ### Claim C4: cache entries never outlive `expiresAt` -/

/-- Claim C4: a `store(q, v, ttl = 0)` at time `t0` followed by a lookup at any
strictly later time returns a miss, counts it, and purges the entry; and in
general any lookup performed past an entry's `expiresAt` returns a miss,
increments the miss counter and deletes the entry. -/
theorem cache_expiry_purge :
    (∀ (α : Type) (st : CacheState α) (sql : String) (v : α) (t0 t1 : Nat),
      t0 < t1 →
      (cacheGet sql t1 (cacheSet sql v 0 t0 st)).1 = none ∧
      (cacheGet sql t1 (cacheSet sql v 0 t0 st)).2.misses =
        (cacheSet sql v 0 t0 st).misses + 1 ∧
      mapGet (generateKey sql)
        (cacheGet sql t1 (cacheSet sql v 0 t0 st)).2.entries = none) ∧
    (∀ (α : Type) (st : CacheState α) (sql : String) (now : Nat)
        (item : CacheEntry α),
      mapGet (generateKey sql) st.entries = some item →
      item.expiresAt < now →
      (cacheGet sql now st).1 = none ∧
      (cacheGet sql now st).2.misses = st.misses + 1 ∧
      mapGet (generateKey sql) (cacheGet sql now st).2.entries = none) := by
  constructor
  · intro α st sql v t0 t1 ht
    have hfound :
        mapGet (generateKey sql) (cacheSet sql v 0 t0 st).entries =
          some ⟨v, t0 + 0, t0⟩ := mapGet_mapSet_self _ _ _
    have hexp : t1 > (CacheEntry.mk v (t0 + 0) t0).expiresAt := by
      simpa using ht
    unfold cacheGet
    simp only [hfound]
    rw [if_pos hexp]
    exact ⟨rfl, rfl, mapGet_mapDelete_self _ _⟩
  · intro α st sql now item hfound hexp
    unfold cacheGet
    simp only [hfound]
    rw [if_pos (show now > item.expiresAt from hexp)]
    exact ⟨rfl, rfl, mapGet_mapDelete_self _ _⟩

set_option maxRecDepth 40000 in
/-- Witness for `cache_expiry_purge`: store `"q" ↦ 7` with TTL 0 at time 0
into the fresh cache, look it up at time 1. -/
theorem cache_expiry_purge_wit :
    (cacheGet "q" 1 (cacheSet "q" 7 0 0 (initCache Nat))).1 = none ∧
    mapGet (generateKey "q")
      (cacheGet "q" 1 (cacheSet "q" 7 0 0 (initCache Nat))).2.entries =
        none :=
  ⟨(cache_expiry_purge.1 Nat (initCache Nat) "q" 7 0 1 (by decide)).1,
   (cache_expiry_purge.1 Nat (initCache Nat) "q" 7 0 1 (by decide)).2.2⟩

/-! ### Claim C3: cache capacity and insertion-order eviction -/

theorem mapSet_length_le {α : Type} (k : String) (v : α)
    (m : List (String × α)) :
    (mapSet k v m).length ≤ m.length + 1 := by
  unfold mapSet
  by_cases h : m.any (fun p => p.1 == k) = true
  · rw [if_pos h, List.length_map]
    omega
  · rw [if_neg h, List.length_append]
    simp

theorem evictOldest_length_lt {α : Type} {m : List (String × α)}
    (h : m ≠ []) : (evictOldest m).length < m.length := by
  match m with
  | [] => exact absurd rfl h
  | e :: rest =>
    show (mapDelete e.1 (e :: rest)).length < (e :: rest).length
    unfold mapDelete
    rw [List.filter_cons_of_neg (by simp)]
    have := List.length_filter_le (fun p => p.1 != e.1) rest
    simp only [List.length_cons]
    omega

/-- The eviction-then-insertion step of `CacheService.set` on a full cache
with well-formed (duplicate-free) keys and a fresh incoming key: the head
entry is removed and the new entry is appended. -/
theorem cacheSet_full_step {α : Type} (st : CacheState α) (sql : String)
    (v : α) (ttl now : Nat) (e0 : String × CacheEntry α)
    (rest : List (String × CacheEntry α))
    (hsplit : st.entries = e0 :: rest)
    (hfull : st.entries.length = st.maxSize)
    (hnd : (mapKeys st.entries).Nodup)
    (hfresh : generateKey sql ∉ mapKeys st.entries) :
    (cacheSet sql v ttl now st).entries =
      rest ++ [(generateKey sql, ⟨v, now + ttl, now⟩)] := by
  have hkeys : mapKeys st.entries = e0.1 :: mapKeys rest := by
    rw [hsplit]; rfl
  have hnd' : e0.1 ∉ mapKeys rest := by
    rw [hkeys] at hnd
    exact (List.nodup_cons.mp hnd).1
  have hevict : evictOldest st.entries = rest := by
    rw [hsplit]
    exact mapDelete_cons_of_not_mem hnd'
  have hfresh' : generateKey sql ∉ mapKeys rest := by
    intro hc
    exact hfresh (by rw [hkeys]; exact List.mem_cons_of_mem _ hc)
  unfold cacheSet
  rw [if_pos (le_of_eq hfull.symm), hevict]
  exact mapSet_of_not_mem _ _ hfresh'

theorem cacheSet_maxSize {α : Type} (st : CacheState α) (sql : String)
    (v : α) (ttl now : Nat) :
    (cacheSet sql v ttl now st).maxSize = st.maxSize := rfl

theorem storeAll_fresh {α : Type} (v : α) (ttl now : Nat) :
    ∀ (qs : List String) (st : CacheState α),
      (mapKeys st.entries ++ qs.map generateKey).Nodup →
      st.entries.length + qs.length ≤ st.maxSize →
      mapKeys (storeAll v ttl now qs st).entries =
        mapKeys st.entries ++ qs.map generateKey ∧
      (storeAll v ttl now qs st).maxSize = st.maxSize := by
  intro qs
  induction qs with
  | nil => intro st hnd hlen; simp [storeAll]
  | cons q qs ih =>
    intro st hnd hlen
    have hfresh : generateKey q ∉ mapKeys st.entries := by
      intro hc
      have hdisj := (List.nodup_append.mp hnd).2.2
      exact hdisj hc (by simp)
    have hlt : ¬ st.entries.length ≥ st.maxSize := by
      simp only [List.length_cons] at hlen
      omega
    have hset : (cacheSet q v ttl now st).entries =
        st.entries ++ [(generateKey q, ⟨v, now + ttl, now⟩)] := by
      unfold cacheSet
      rw [if_neg hlt]
      exact mapSet_of_not_mem _ _ hfresh
    have hkeys1 : mapKeys (cacheSet q v ttl now st).entries =
        mapKeys st.entries ++ [generateKey q] := by
      rw [hset]
      unfold mapKeys
      rw [List.map_append]
      rfl
    have hstep : storeAll v ttl now (q :: qs) st =
        storeAll v ttl now qs (cacheSet q v ttl now st) := rfl
    rw [hstep]
    have hnd1 : (mapKeys (cacheSet q v ttl now st).entries ++
        qs.map generateKey).Nodup := by
      rw [hkeys1, List.append_assoc]
      exact hnd
    have hlen1 : (cacheSet q v ttl now st).entries.length + qs.length ≤
        (cacheSet q v ttl now st).maxSize := by
      rw [cacheSet_maxSize, hset, List.length_append]
      simp only [List.length_cons] at hlen
      simp only [List.length_cons, List.length_nil]
      omega
    obtain ⟨h1, h2⟩ := ih (cacheSet q v ttl now st) hnd1 hlen1
    refine ⟨?_, by rw [h2, cacheSet_maxSize]⟩
    rw [h1, hkeys1, List.append_assoc]
    rfl

theorem mapKeys_length {α : Type} (m : List (String × α)) :
    (mapKeys m).length = m.length := List.length_map _ _

/-- Claim C3: the cache never exceeds `maxSize` entries; a store on a full
cache evicts exactly the oldest-inserted entry and then appends the new one;
and storing `maxSize + 1` distinct-fingerprint queries into an empty cache of
capacity `maxSize` leaves exactly `maxSize` resident entries with the
first-inserted key absent. -/
theorem cache_capacity_fifo :
    (∀ (α : Type) (st : CacheState α) (sql : String) (v : α) (ttl now : Nat),
      1 ≤ st.maxSize → st.entries.length ≤ st.maxSize →
      (cacheSet sql v ttl now st).entries.length ≤ st.maxSize) ∧
    (∀ (α : Type) (st : CacheState α) (sql : String) (v : α) (ttl now : Nat)
        (e0 : String × CacheEntry α) (rest : List (String × CacheEntry α)),
      st.entries = e0 :: rest →
      st.entries.length = st.maxSize →
      (mapKeys st.entries).Nodup →
      generateKey sql ∉ mapKeys st.entries →
      (cacheSet sql v ttl now st).entries =
        rest ++ [(generateKey sql, ⟨v, now + ttl, now⟩)]) ∧
    (∀ (α : Type) (v : α) (ttl now : Nat) (q0 qlast : String)
        (qs1 : List String),
      (((q0 :: qs1) ++ [qlast]).map generateKey).Nodup →
      (storeAll v ttl now ((q0 :: qs1) ++ [qlast])
          (mkCache α (qs1.length + 1))).entries.length = qs1.length + 1 ∧
      mapGet (generateKey q0)
        (storeAll v ttl now ((q0 :: qs1) ++ [qlast])
          (mkCache α (qs1.length + 1))).entries = none) := by
  refine ⟨?_, ?_, ?_⟩
  · intro α st sql v ttl now hmax hlen
    show (mapSet (generateKey sql) ⟨v, now + ttl, now⟩
        (if st.entries.length ≥ st.maxSize then evictOldest st.entries
         else st.entries)).length ≤ st.maxSize
    by_cases hfull : st.entries.length ≥ st.maxSize
    · rw [if_pos hfull]
      have hne : st.entries ≠ [] := by
        intro hc
        rw [hc] at hfull
        simp only [List.length_nil] at hfull
        omega
      have h1 := evictOldest_length_lt hne
      have h2 := mapSet_length_le (generateKey sql)
        (⟨v, now + ttl, now⟩ : CacheEntry α) (evictOldest st.entries)
      omega
    · rw [if_neg hfull]
      have h2 := mapSet_length_le (generateKey sql)
        (⟨v, now + ttl, now⟩ : CacheEntry α) st.entries
      omega
  · intro α st sql v ttl now e0 rest hsplit hfull hnd hfresh
    exact cacheSet_full_step st sql v ttl now e0 rest hsplit hfull hnd hfresh
  · intro α v ttl now q0 qlast qs1 hnd
    have hndl : ((q0 :: qs1).map generateKey).Nodup := by
      rw [List.map_append] at hnd
      exact (List.nodup_append.mp hnd).1
    have hfill := storeAll_fresh v ttl now (q0 :: qs1)
      (mkCache α (qs1.length + 1))
      (by simpa [mkCache, mapKeys] using hndl)
      (by simp [mkCache])
    set st1 := storeAll v ttl now (q0 :: qs1) (mkCache α (qs1.length + 1))
      with hst1
    obtain ⟨hkeys1, hmax1⟩ := hfill
    have hkeys1' : mapKeys st1.entries = (q0 :: qs1).map generateKey := by
      simpa [mkCache, mapKeys] using hkeys1
    have hlen1 : st1.entries.length = qs1.length + 1 := by
      have := mapKeys_length st1.entries
      rw [hkeys1'] at this
      simpa using this.symm
    have hmax1' : st1.maxSize = qs1.length + 1 := by
      simpa [mkCache] using hmax1
    obtain ⟨e0, rest, hsplit⟩ :
        ∃ e0 rest, st1.entries = e0 :: rest := by
      match hm : st1.entries with
      | [] =>
        rw [hm] at hlen1
        simp at hlen1
      | e0 :: rest => exact ⟨e0, rest, rfl⟩
    have hstep : storeAll v ttl now ((q0 :: qs1) ++ [qlast])
        (mkCache α (qs1.length + 1)) = cacheSet qlast v ttl now st1 := by
      rw [hst1]
      unfold storeAll
      rw [List.foldl_append]
      rfl
    have hkeysplit : mapKeys st1.entries =
        generateKey q0 :: qs1.map generateKey := by
      rw [hkeys1']
      rfl
    have hndk : (mapKeys st1.entries).Nodup := by
      rw [hkeys1']
      exact hndl
    have hfreshlast : generateKey qlast ∉ mapKeys st1.entries := by
      rw [hkeys1']
      intro hc
      rw [List.map_append] at hnd
      exact (List.nodup_append.mp hnd).2.2 hc (by simp)
    have hres := cacheSet_full_step st1 qlast v ttl now e0 rest hsplit
      (by rw [hlen1, hmax1']) hndk hfreshlast
    have hrestkeys : mapKeys rest = qs1.map generateKey := by
      have : mapKeys st1.entries = e0.1 :: mapKeys rest := by
        rw [hsplit]; rfl
      rw [hkeysplit] at this
      exact (List.cons.inj this).2.symm
    constructor
    · rw [hstep, hres, List.length_append]
      have : rest.length + 1 = qs1.length + 1 := by
        have h := mapKeys_length rest
        rw [hrestkeys] at h
        have h2 : st1.entries.length = rest.length + 1 := by
          rw [hsplit]; rfl
        omega
      simpa using this
    · rw [hstep, hres]
      apply mapGet_eq_none_of_not_mem
      have hq0 : generateKey q0 ∉ mapKeys rest ∧
          generateKey q0 ≠ generateKey qlast := by
        have hnd2 : (((q0 :: qs1) ++ [qlast]).map generateKey).Nodup := hnd
        rw [List.map_append] at hnd2
        have hdisj := (List.nodup_append.mp hnd2).2.2
        constructor
        · rw [hrestkeys]
          intro hc
          have hhd : generateKey q0 ∉ (qs1.map generateKey) :=
            (List.nodup_cons.mp hndl).1
          exact hhd hc
        · intro hc
          have h1 : generateKey q0 ∈ (q0 :: qs1).map generateKey := by simp
          have h2 : generateKey q0 ∈ [qlast].map generateKey := by
            simp [hc]
          exact hdisj h1 h2
      intro hc
      unfold mapKeys at hc
      rw [List.map_append] at hc
      rcases List.mem_append.mp hc with h | h
      · exact hq0.1 h
      · simp only [List.map_cons, List.map_nil, List.mem_singleton] at h
        exact hq0.2 h

set_option maxRecDepth 100000 in
/-- Witness for `cache_capacity_fifo`: storing the three distinct queries
`"a"`, `"b"`, `"c"` into an empty cache of capacity 2 leaves 2 entries and
evicts the key of `"a"`. -/
theorem cache_capacity_fifo_wit :
    ((("a" :: ["b"]) ++ ["c"]).map generateKey).Nodup ∧
    (storeAll 0 5 0 (("a" :: ["b"]) ++ ["c"]) (mkCache Nat 2)).entries.length
      = 2 ∧
    mapGet (generateKey "a")
      (storeAll 0 5 0 (("a" :: ["b"]) ++ ["c"]) (mkCache Nat 2)).entries =
      none :=
  ⟨by decide,
   (cache_capacity_fifo.2.2 Nat 0 5 0 "a" "c" ["b"] (by decide)).1,
   (cache_capacity_fifo.2.2 Nat 0 5 0 "a" "c" ["b"] (by decide)).2⟩

/-! ### TrinoService connection pool (src/services/trinoService.js lines 22-41) -/

/-- The pool key is the concatenation `catalog + "." + schema`. -/
def poolKey (catalog schema : String) : String :=
  catalog ++ "." ++ schema

/-- The pool-relevant state of the `TrinoService` singleton: `clientPool` maps
pool keys to connection handles, `maxPoolSize` is 10 in the constructor.
`Trino.create` returns a fresh object on every call; handle identity is
modelled by tagging each created handle with the value of the counter
`nextId`, so two handles are the same instance exactly when their tags are
equal. -/
structure PoolState where
  pool : List (String × Nat)
  nextId : Nat
  maxPoolSize : Nat
deriving DecidableEq

/-- The pool state of the freshly constructed service: empty pool,
`maxPoolSize = 10`. -/
def trinoInit : PoolState := ⟨[], 0, 10⟩

/-- `TrinoService.getClient(catalog, schema)`: return the pooled handle when
the key is resident; otherwise create a fresh handle and admit it only when
the pool is below `maxPoolSize` (the key is not resident here, so the JS
`Map.set` is an append). -/
def getClient (catalog schema : String) (st : PoolState) : Nat × PoolState :=
  match mapGet (poolKey catalog schema) st.pool with
  | some client => (client, st)
  | none =>
    (st.nextId,
      { pool :=
          if st.pool.length < st.maxPoolSize then
            st.pool ++ [(poolKey catalog schema, st.nextId)]
          else st.pool,
        nextId := st.nextId + 1,
        maxPoolSize := st.maxPoolSize })

/-- Well-formedness of a pool state, preserved by `getClient` and true of
`trinoInit`: handles are pairwise distinct and all tagged below `nextId`. -/
def PoolWF (st : PoolState) : Prop :=
  (st.pool.map Prod.snd).Nodup ∧ ∀ p ∈ st.pool, p.2 < st.nextId

theorem mapGet_cons_eq {α : Type} {k : String} {p : String × α}
    (m : List (String × α)) (h : (p.1 == k) = true) :
    mapGet k (p :: m) = some p.2 := by
  unfold mapGet
  rw [@List.find?_cons_of_pos _ (fun q => q.1 == k) p m h]
  rfl

theorem mapGet_mem {α : Type} {k : String} {m : List (String × α)} {v : α}
    (h : mapGet k m = some v) : (k, v) ∈ m := by
  unfold mapGet at h
  cases hf : m.find? (fun p => p.1 == k) with
  | none => rw [hf] at h; exact absurd h (by simp)
  | some p =>
    rw [hf] at h
    have hmem := List.mem_of_find?_eq_some hf
    have hpred := List.find?_some hf
    have hp2 : p.2 = v := by simpa using h
    have hp1 : p.1 = k := by simpa using hpred
    have : p = (k, v) := by
      cases p
      simp only [Prod.mk.injEq]
      exact ⟨hp1, hp2⟩
    rw [this] at hmem
    exact hmem

theorem mapGet_append_singleton_self {α : Type} {k : String}
    {m : List (String × α)} (h : mapGet k m = none) (v : α) :
    mapGet k (m ++ [(k, v)]) = some v := by
  induction m with
  | nil => simp [mapGet]
  | cons p m ih =>
    cases hpk : p.1 == k with
    | true =>
      rw [mapGet_cons_eq m hpk] at h
      exact absurd h (by simp)
    | false =>
      rw [List.cons_append, mapGet_cons_ne _ hpk]
      rw [mapGet_cons_ne m hpk] at h
      exact ih h

theorem mapGet_append_singleton_ne {α : Type} {k k' : String}
    (hk : (k' == k) = false) (m : List (String × α)) (v : α) :
    mapGet k (m ++ [(k', v)]) = mapGet k m := by
  induction m with
  | nil =>
    rw [List.nil_append]
    exact mapGet_cons_ne [] hk
  | cons p m ih =>
    cases hpk : p.1 == k with
    | true =>
      rw [List.cons_append, mapGet_cons_eq _ hpk, mapGet_cons_eq m hpk]
    | false =>
      rw [List.cons_append, mapGet_cons_ne _ hpk, mapGet_cons_ne m hpk]
      exact ih

theorem nodup_map_snd_inj {α β : Type} {l : List (α × β)}
    (h : (l.map Prod.snd).Nodup) :
    ∀ p ∈ l, ∀ q ∈ l, p.2 = q.2 → p = q := by
  induction l with
  | nil => intro p hp; exact absurd hp (by simp)
  | cons a l ih =>
    intro p hp q hq heq
    rw [List.map_cons, List.nodup_cons] at h
    rcases List.mem_cons.mp hp with hp1 | hp2 <;>
      rcases List.mem_cons.mp hq with hq1 | hq2
    · rw [hp1, hq1]
    · exfalso
      apply h.1
      rw [hp1] at heq
      exact List.mem_map.mpr ⟨q, hq2, heq.symm⟩
    · exfalso
      apply h.1
      rw [hq1] at heq
      exact List.mem_map.mpr ⟨p, hp2, heq⟩
    · exact ih h.2 p hp2 q hq2 heq

/-- Claim C5 (amended): pool identity.  Two sequential `getClient` calls for
the same `(catalog, schema)` return the same handle instance provided the key
is already resident or the pool is below capacity at the first call; with a
well-formed pool, acquisitions under distinct pool keys return distinct
handles; and when the pool is at capacity a non-resident key gets a freshly
constructed handle that is returned to the caller but not admitted into the
pool — whence a second acquisition of such a key returns a different instance
(`pool_full_fresh_handles_cex`). -/
theorem pool_identity_capacity :
    (∀ (st : PoolState) (c s : String),
      ((mapGet (poolKey c s) st.pool).isSome = true ∨
        st.pool.length < st.maxPoolSize) →
      (getClient c s (getClient c s st).2).1 = (getClient c s st).1) ∧
    (∀ (st : PoolState) (c1 s1 c2 s2 : String),
      PoolWF st → poolKey c1 s1 ≠ poolKey c2 s2 →
      (getClient c2 s2 (getClient c1 s1 st).2).1 ≠ (getClient c1 s1 st).1) ∧
    (∀ (st : PoolState) (c s : String),
      PoolWF st → mapGet (poolKey c s) st.pool = none →
      st.maxPoolSize ≤ st.pool.length →
      (getClient c s st).2.pool = st.pool ∧
      (getClient c s st).1 ∉ st.pool.map Prod.snd) := by
  refine ⟨?_, ?_, ?_⟩
  · intro st c s hcond
    cases hg : mapGet (poolKey c s) st.pool with
    | some h =>
      have he : getClient c s st = (h, st) := by
        simp only [getClient, hg]
      rw [he, he]
    | none =>
      have hlt : st.pool.length < st.maxPoolSize := by
        rcases hcond with hs | hlt
        · rw [hg] at hs
          exact absurd hs (by simp)
        · exact hlt
      have he : getClient c s st =
          (st.nextId,
            ⟨st.pool ++ [(poolKey c s, st.nextId)], st.nextId + 1,
              st.maxPoolSize⟩) := by
        simp only [getClient, hg, if_pos hlt]
      rw [he]
      have hg2 : mapGet (poolKey c s)
          (st.pool ++ [(poolKey c s, st.nextId)]) = some st.nextId :=
        mapGet_append_singleton_self hg st.nextId
      simp only [getClient, hg2]
  · intro st c1 s1 c2 s2 hwf hne
    cases hg1 : mapGet (poolKey c1 s1) st.pool with
    | some h1 =>
      have he1 : getClient c1 s1 st = (h1, st) := by
        simp only [getClient, hg1]
      rw [he1]
      cases hg2 : mapGet (poolKey c2 s2) st.pool with
      | some h2 =>
        have he2 : getClient c2 s2 st = (h2, st) := by
          simp only [getClient, hg2]
        rw [he2]
        intro hc
        have heq := nodup_map_snd_inj hwf.1 _ (mapGet_mem hg2) _
          (mapGet_mem hg1) (by simpa using hc)
        exact hne (congrArg Prod.fst heq).symm
      | none =>
        have he2 : (getClient c2 s2 st).1 = st.nextId := by
          simp only [getClient, hg2]
        rw [he2]
        have hb := hwf.2 _ (mapGet_mem hg1)
        intro hc
        simp only at hb hc
        omega
    | none =>
      by_cases hlt : st.pool.length < st.maxPoolSize
      · have he1 : getClient c1 s1 st =
            (st.nextId,
              ⟨st.pool ++ [(poolKey c1 s1, st.nextId)], st.nextId + 1,
                st.maxPoolSize⟩) := by
          simp only [getClient, hg1, if_pos hlt]
        rw [he1]
        have hkne : (poolKey c1 s1 == poolKey c2 s2) = false :=
          beq_eq_false_iff_ne.mpr hne
        have happ := mapGet_append_singleton_ne hkne st.pool st.nextId
        cases hg2 : mapGet (poolKey c2 s2) st.pool with
        | some h2 =>
          have hg2' : mapGet (poolKey c2 s2)
              (st.pool ++ [(poolKey c1 s1, st.nextId)]) = some h2 := by
            rw [happ, hg2]
          simp only [getClient, hg2']
          have hb := hwf.2 _ (mapGet_mem hg2)
          intro hc
          simp only at hb hc
          omega
        | none =>
          have hg2' : mapGet (poolKey c2 s2)
              (st.pool ++ [(poolKey c1 s1, st.nextId)]) = none := by
            rw [happ, hg2]
          simp only [getClient, hg2']
          omega
      · have he1 : getClient c1 s1 st =
            (st.nextId, ⟨st.pool, st.nextId + 1, st.maxPoolSize⟩) := by
          simp only [getClient, hg1, if_neg hlt]
        rw [he1]
        cases hg2 : mapGet (poolKey c2 s2) st.pool with
        | some h2 =>
          have hg2' : mapGet (poolKey c2 s2)
              (⟨st.pool, st.nextId + 1, st.maxPoolSize⟩ : PoolState).pool =
                some h2 := hg2
          simp only [getClient, hg2']
          have hb := hwf.2 _ (mapGet_mem hg2)
          intro hc
          simp only at hb hc
          omega
        | none =>
          simp only [getClient, hg2]
          omega
  · intro st c s hwf hg hcap
    have hnl : ¬ st.pool.length < st.maxPoolSize := by omega
    have he : getClient c s st =
        (st.nextId, ⟨st.pool, st.nextId + 1, st.maxPoolSize⟩) := by
      simp only [getClient, hg, if_neg hnl]
    rw [he]
    refine ⟨rfl, ?_⟩
    intro hc
    obtain ⟨p, hp, hpv⟩ := List.mem_map.mp hc
    have := hwf.2 p hp
    omega

/-- A pool at its capacity of 10 resident keys, as the service reaches after
ten distinct catalog/schema acquisitions from `trinoInit`. -/
def fullPool : PoolState :=
  ⟨[("c0.s0", 0), ("c1.s1", 1), ("c2.s2", 2), ("c3.s3", 3), ("c4.s4", 4),
    ("c5.s5", 5), ("c6.s6", 6), ("c7.s7", 7), ("c8.s8", 8), ("c9.s9", 9)],
   10, 10⟩

/-- Claim C5 counterexample: with the pool at its capacity of 10 resident
keys, two sequential `getClient` calls for the same non-resident
`(catalog, schema)` — and the pool never evicts, so no eviction intervenes —
return two distinct handle instances, because the first handle is not admitted
into the pool. -/
theorem pool_full_fresh_handles_cex :
    (getClient "a" "b" (getClient "a" "b" fullPool).2).1 ≠
      (getClient "a" "b" fullPool).1 := by decide

/-- Witness for `pool_identity_capacity` at concrete inputs: re-acquisition
below capacity reuses the handle; distinct keys get distinct handles; at
capacity the fresh handle is not admitted. -/
theorem pool_identity_capacity_wit :
    (getClient "c" "s" (getClient "c" "s" trinoInit).2).1 =
      (getClient "c" "s" trinoInit).1 ∧
    (getClient "c2" "s2" (getClient "c1" "s1" trinoInit).2).1 ≠
      (getClient "c1" "s1" trinoInit).1 ∧
    ((getClient "a" "b" fullPool).2.pool = fullPool.pool ∧
      (getClient "a" "b" fullPool).1 ∉ fullPool.pool.map Prod.snd) :=
  ⟨pool_identity_capacity.1 trinoInit "c" "s" (Or.inr (by decide)),
   pool_identity_capacity.2.1 trinoInit "c1" "s1" "c2" "s2"
     ⟨by decide, by decide⟩ (by decide),
   pool_identity_capacity.2.2 fullPool "a" "b" ⟨by decide, by decide⟩
     (by decide) (by decide)⟩

/-- Claim C10: the pool key is the bare concatenation
`catalog + "." + schema`, so `getClient` cannot distinguish two
catalog/schema pairs whose concatenations coincide: its entire result (handle
and new state) depends only on the key.  In particular, after
`getClient("a", "b.c")` is admitted from the initial state,
`getClient("a.b", "c")` returns the very same pooled handle. -/
theorem poolKey_collision :
    (∀ (c1 s1 c2 s2 : String) (st : PoolState),
      poolKey c1 s1 = poolKey c2 s2 →
      getClient c1 s1 st = getClient c2 s2 st) ∧
    (getClient "a.b" "c" (getClient "a" "b.c" trinoInit).2).1 =
      (getClient "a" "b.c" trinoInit).1 := by
  constructor
  · intro c1 s1 c2 s2 st h
    unfold getClient
    rw [h]
  · decide

/-- Witness for `poolKey_collision`: the pairs `("a", "b.c")` and
`("a.b", "c")` share the pool key `"a.b.c"`, and `getClient` treats them
identically. -/
theorem poolKey_collision_wit :
    poolKey "a" "b.c" = poolKey "a.b" "c" ∧
    getClient "a" "b.c" trinoInit = getClient "a.b" "c" trinoInit :=
  ⟨by decide, poolKey_collision.1 "a" "b.c" "a.b" "c" trinoInit (by decide)⟩

/-- Claim C6 (amended): the fingerprint is the md5 of the trimmed, case-folded
SQL text.  Queries with the same normalised text hash identically — in
particular `"SELECT 1"` and `"  select 1  "` — and the distinct normalised
texts `"select 1"` and `"select 2"` produce distinct digests.  Normalisation
trims only leading and trailing whitespace, so strings differing in interior
whitespace hash differently (`generateKey_inner_whitespace_cex`); and
distinctness of digests for distinct texts is an empirical property of md5
witnessed here on the claim's concrete pair, not a universal law. -/
theorem generateKey_normalization :
    (∀ s1 s2 : String, normalizeSql s1 = normalizeSql s2 →
      generateKey s1 = generateKey s2) ∧
    generateKey "SELECT 1" = generateKey "  select 1  " ∧
    generateKey "SELECT 1" ≠ generateKey "SELECT 2" := by
  refine ⟨fun s1 s2 h => congrArg md5Hex h, ?_, ?_⟩
  · show md5Hex (normalizeSql "SELECT 1") = md5Hex (normalizeSql "  select 1  ")
    have h : normalizeSql "SELECT 1" = normalizeSql "  select 1  " := by decide
    rw [h]
  · set_option maxRecDepth 40000 in decide

set_option maxRecDepth 40000 in
/-- Claim C6 counterexample: `"SELECT 1"` and `"SELECT  1"` differ only in
whitespace (one interior space versus two), yet their fingerprints differ:
`trim()` removes only leading and trailing whitespace, so the normalised
texts, and hence the md5 digests, are distinct. -/
theorem generateKey_inner_whitespace_cex :
    generateKey "SELECT 1" ≠ generateKey "SELECT  1" := by decide

/-- Witness for `generateKey_normalization` at a concrete input pair with
equal normalised text. -/
theorem generateKey_normalization_wit :
    normalizeSql "sql" = normalizeSql " SQL " ∧
    generateKey "sql" = generateKey " SQL " :=
  ⟨by decide, generateKey_normalization.1 "sql" " SQL " (by decide)⟩

/-! ### Forecast merge of the chat controller (src/unnamed/part_002) -/

/-- A cell of a result-set row: JS `null`/`undefined` (the merge code treats
them identically), a finite number, a string, or the IEEE `NaN` that
`parseFloat` yields on unparseable input.  Finite JS numbers are modelled as
exact rationals; the claims only involve values on which doubles are exact. -/
inductive Cell where
  | null : Cell
  | num : ℚ → Cell
  | str : String → Cell
  | nan : Cell
deriving DecidableEq

/-- JS truthiness of a cell (`row[dateColIdx] &&`): `null`, `undefined`, `0`,
`NaN` and the empty string are falsy. -/
def Cell.truthy : Cell → Bool
  | .null => false
  | .num x => x ≠ 0
  | .str s => s ≠ ""
  | .nan => false

/-- `parseFloat` on a string: skip leading whitespace, an optional sign, then
digits with an optional fractional part and an optional exponent; `none` is
`NaN` (no digits).  (`Infinity` literals do not occur in this code's data and
are not modelled.) -/
def jsParseFloat (s : String) : Option ℚ :=
  let l := s.toList.dropWhile isJsSpace
  let sl : ℚ × List Char :=
    match l with
    | '-' :: r => (-1, r)
    | '+' :: r => (1, r)
    | _ => (1, l)
  let ip := (sl.2.takeWhile Char.isDigit).map Char.toNat
  let rest := sl.2.dropWhile Char.isDigit
  let fr : List Nat × List Char :=
    match rest with
    | '.' :: r => ((r.takeWhile Char.isDigit).map Char.toNat,
        r.dropWhile Char.isDigit)
    | _ => ([], rest)
  if ip.isEmpty ∧ fr.1.isEmpty then none
  else
    let mant : ℚ :=
      (ip.foldl (fun a d => 10 * a + (d - 48)) 0 : Nat) +
        (fr.1.foldl (fun a d => 10 * a + (d - 48)) 0 : Nat) /
          (10 : ℚ) ^ fr.1.length
    let ex : ℤ :=
      match fr.2 with
      | c :: r =>
        if c = 'e' ∨ c = 'E' then
          let es : ℤ × List Char :=
            match r with
            | '-' :: r2 => (-1, r2)
            | '+' :: r2 => (1, r2)
            | _ => (1, r)
          let ed := (es.2.takeWhile Char.isDigit).map Char.toNat
          if ed.isEmpty then 0
          else es.1 * (ed.foldl (fun a d => 10 * a + (d - 48)) 0 : Nat)
        else 0
      | [] => 0
    some (sl.1 * mant * (10 : ℚ) ^ ex)

/-- `parseFloat` on a cell: numbers pass through, strings are parsed, `null`
and `NaN` give `NaN` (`none`). -/
def parseFloatCell : Cell → Option ℚ
  | .null => none
  | .num x => some x
  | .str s => jsParseFloat s
  | .nan => none

/-- The cell a JS number or `NaN` assignment produces. -/
def jsNum (o : Option ℚ) : Cell :=
  match o with
  | some x => .num x
  | none => .nan

/-- `row[i]`: out-of-range access yields `undefined`, which this model folds
into `Cell.null` (the two behave identically in this code). -/
def cellAt (row : List Cell) (i : Nat) : Cell :=
  row.getD i Cell.null

/-- Case-insensitive prefix test on character lists (exact equality after the
caller has lower-cased the haystack). -/
def leadsWith : List Char → List Char → Bool
  | [], _ => true
  | _ :: _, [] => false
  | a :: as, b :: bs => a == b && leadsWith as bs

/-- `hay.includes(needle)` on character lists. -/
def hasSub (needle hay : List Char) : Bool :=
  (List.range (hay.length + 1)).any (fun i => leadsWith needle (hay.drop i))

/-- `columns.findIndex(c => c.toLowerCase().includes('date'))` of the forecast
merge block, as an `Option`al index (the JS code uses the sentinel `-1`; every
claim concerns executions in which the column is found). -/
def findDateCol (columns : List String) : Option Nat :=
  (List.range columns.length).find?
    (fun i => hasSub ("date".toList)
      ((columns.getD i "").toList.map Char.toLower))

/-- `columns.findIndex((c, i) => i !== dateColIdx && rows.length > 0 &&
!isNaN(parseFloat(rows[0][i])))`, as an `Option`al index.  `dc` is the
(possibly absent) date column index: with the JS sentinel `-1` the inequality
`i !== -1` always holds, which `some i ≠ dc` reproduces. -/
def findValueCol (dc : Option Nat) (columns : List String)
    (rows : List (List Cell)) : Option Nat :=
  (List.range columns.length).find?
    (fun i => decide (some i ≠ dc) && !rows.isEmpty &&
      (parseFloatCell (cellAt (rows.headD []) i)).isSome)

/-- `validHistoricalRows`: historical rows kept by the merge — the date cell
must be truthy and the value cell neither `null` nor `undefined`. -/
def validHistoricalRows (dIdx vIdx : Nat) (rows : List (List Cell)) :
    List (List Cell) :=
  rows.filter
    (fun row => (cellAt row dIdx).truthy && !(cellAt row vIdx == Cell.null))

/-- `existingDates`: the set of date cells of the kept historical rows, built
once before the prediction loop and never extended by it. -/
def existingDates (dIdx vIdx : Nat) (rows : List (List Cell)) : List Cell :=
  (validHistoricalRows dIdx vIdx rows).map (fun row => cellAt row dIdx)

/-- The in-place update `lastRow[newColumns.length - 1] =
parseFloat(lastRow[valueColIdx])` connecting the forecast line: on a nonempty
row list, overwrite the forecast cell of the last row with that row's own
(parsed) value. -/
def withLastForecast (vIdx fcIdx : Nat) (l : List (List Cell)) :
    List (List Cell) :=
  match l.getLast? with
  | none => l
  | some last =>
    l.dropLast ++ [last.set fcIdx (jsNum (parseFloatCell (cellAt last vIdx)))]

/-- The transformed historical rows: each kept row gets a null forecast cell
appended, and the last one then carries its own value in the forecast cell. -/
def histRowsWithForecast (dIdx vIdx fcIdx : Nat) (rows : List (List Cell)) :
    List (List Cell) :=
  withLastForecast vIdx fcIdx
    ((validHistoricalRows dIdx vIdx rows).map (fun row => row ++ [Cell.null]))

/-- The row appended for one prediction point: `n` nulls with the date at
`dIdx` and the predicted value in the forecast column. -/
def predRow (dIdx fcIdx n : Nat) (p : String × ℚ) : List Cell :=
  ((List.replicate n Cell.null).set dIdx (Cell.str p.1)).set fcIdx
    (Cell.num p.2)

/-- The forecast-merge body once both columns are identified: transformed
historical rows followed by one new row per prediction whose date is not
among the kept rows' dates (the loop tests membership in `existingDates`,
which it never extends, so it is a filter). -/
def mergeWith (dIdx vIdx : Nat) (columns : List String)
    (rows : List (List Cell)) (preds : List (String × ℚ)) :
    List String × List (List Cell) :=
  (columns ++ ["Forecast"],
    histRowsWithForecast dIdx vIdx ((columns ++ ["Forecast"]).length - 1)
        rows ++
      (preds.filter (fun p =>
          !((existingDates dIdx vIdx rows).contains (Cell.str p.1)))).map
        (predRow dIdx ((columns ++ ["Forecast"]).length - 1)
          (columns ++ ["Forecast"]).length))

/-- The forecast-merge block of `exports.chat` (src/unnamed/part_002 lines
49-78) on a historical result set and the predictions supplied by the
external forecaster; `none` marks the executions in which a date or value
column is not identified (the JS code then runs on with `-1` sentinel
indices, which no claim concerns). -/
def mergeForecast (columns : List String) (rows : List (List Cell))
    (preds : List (String × ℚ)) :
    Option (List String × List (List Cell)) :=
  match findDateCol columns,
      findValueCol (findDateCol columns) columns rows with
  | some dIdx, some vIdx => some (mergeWith dIdx vIdx columns rows preds)
  | _, _ => none

/-- Claim C7: merging the historical rows
`[("2025-01-01", 100), ("2025-01-02", 110)]` with the prediction points
`[("2025-01-02", 999), ("2025-01-03", 120)]` yields exactly three rows; the
row for `2025-01-02` carries the historical value `110` in the appended
`Forecast` column (the continuity rule wins over the duplicate prediction
`999`), and the row for `2025-01-03` has a null value cell and `120` in the
`Forecast` column. -/
theorem merge_concrete_scenario :
    mergeForecast ["date", "value"]
      [[Cell.str "2025-01-01", Cell.num 100],
       [Cell.str "2025-01-02", Cell.num 110]]
      [("2025-01-02", 999), ("2025-01-03", 120)] =
    some (["date", "value", "Forecast"],
      [[Cell.str "2025-01-01", Cell.num 100, Cell.null],
       [Cell.str "2025-01-02", Cell.num 110, Cell.num 110],
       [Cell.str "2025-01-03", Cell.null, Cell.num 120]]) := by decide

/-- Claim C2 counterexample: two prediction points that share the fresh date
`"2025-01-03"` are BOTH appended — the duplicate-date set is built from the
historical rows only and is never extended by the prediction loop — so the
merged output carries the same date in two distinct rows, refuting the claimed
duplicate-freeness of the merge for arbitrary prediction sequences. -/
theorem merge_duplicate_pred_dates_cex :
    mergeForecast ["date", "v"]
      [[Cell.str "2025-01-01", Cell.num 1], [Cell.str "2025-01-02", Cell.num 2]]
      [("2025-01-03", 5), ("2025-01-03", 6)] =
    some (["date", "v", "Forecast"],
      [[Cell.str "2025-01-01", Cell.num 1, Cell.null],
       [Cell.str "2025-01-02", Cell.num 2, Cell.num 2],
       [Cell.str "2025-01-03", Cell.null, Cell.num 5],
       [Cell.str "2025-01-03", Cell.null, Cell.num 6]]) ∧
    ¬ (([[Cell.str "2025-01-01", Cell.num 1, Cell.null],
        [Cell.str "2025-01-02", Cell.num 2, Cell.num 2],
        [Cell.str "2025-01-03", Cell.null, Cell.num 5],
        [Cell.str "2025-01-03", Cell.null, Cell.num 6]].map
          (fun r => cellAt r 0)).Nodup) := by decide

theorem findDateCol_lt {columns : List String} {dIdx : Nat}
    (h : findDateCol columns = some dIdx) : dIdx < columns.length := by
  unfold findDateCol at h
  exact List.mem_range.mp (List.mem_of_find?_eq_some h)

theorem cellAt_set_ne {l : List Cell} {i j : Nat} (v : Cell) (h : i ≠ j) :
    cellAt (l.set i v) j = cellAt l j := by
  unfold cellAt
  simp [List.getD_eq_getElem?_getD, List.getElem?_set_ne h]

theorem cellAt_set_self {l : List Cell} {i : Nat} (v : Cell)
    (h : i < l.length) : cellAt (l.set i v) i = v := by
  unfold cellAt
  simp [List.getD_eq_getElem?_getD, List.getElem?_set_self h]

theorem cellAt_append_left {row l : List Cell} {i : Nat}
    (h : i < row.length) : cellAt (row ++ l) i = cellAt row i := by
  unfold cellAt
  simp [List.getD_eq_getElem?_getD, List.getElem?_append, h]

theorem withLastForecast_length (vIdx fcIdx : Nat) (l : List (List Cell)) :
    (withLastForecast vIdx fcIdx l).length = l.length := by
  unfold withLastForecast
  split
  · rfl
  · rename_i last heq
    have hne : l ≠ [] := by
      intro hc
      rw [hc] at heq
      exact Option.noConfusion heq
    have hpos : 0 < l.length := List.length_pos.mpr hne
    rw [List.length_append, List.length_dropLast]
    simp only [List.length_cons, List.length_nil]
    omega

theorem withLastForecast_map_dates {vIdx fcIdx dIdx : Nat} (h : fcIdx ≠ dIdx)
    (l : List (List Cell)) :
    (withLastForecast vIdx fcIdx l).map (fun r => cellAt r dIdx) =
      l.map (fun r => cellAt r dIdx) := by
  unfold withLastForecast
  split
  · rfl
  · rename_i last heq
    have hne : l ≠ [] := by
      intro hc
      rw [hc] at heq
      exact Option.noConfusion heq
    have hlast : l.getLast hne = last := by
      rw [List.getLast?_eq_getLast l hne] at heq
      exact Option.some.inj heq
    rw [List.map_append]
    simp only [List.map_cons, List.map_nil]
    rw [cellAt_set_ne _ h]
    conv_rhs => rw [← List.dropLast_concat_getLast hne, hlast]
    rw [List.map_append]
    simp

theorem cellAt_predRow_date {dIdx fcIdx n : Nat} (p : String × ℚ)
    (hne : fcIdx ≠ dIdx) (hlt : dIdx < n) :
    cellAt (predRow dIdx fcIdx n p) dIdx = Cell.str p.1 := by
  unfold predRow
  rw [cellAt_set_ne _ hne]
  exact cellAt_set_self _ (by simpa using hlt)

theorem cell_contains_iff (c : Cell) (l : List Cell) :
    l.contains c = true ↔ c ∈ l := by
  induction l with
  | nil => simp
  | cons a l ih =>
    simp [List.contains_cons, ih, beq_iff_eq]

/-- Claim C2 (amended): for every historical result set whose rows are aligned
with the columns and every prediction sequence, the merged output has at most
`rows + predictions` rows; and provided the historical rows carry pairwise
distinct date cells and the prediction dates are pairwise distinct, no two
rows of the merged output share a date cell — a prediction whose date equals
an existing historical date is dropped, never appended or overwritten.
(Without those distinctness provisos the claim fails: the code neither
de-duplicates historical dates nor extends the seen-date set while appending
predictions, see `merge_duplicate_pred_dates_cex`.) -/
theorem merge_rowcount_nodup
    (columns : List String) (rows : List (List Cell))
    (preds : List (String × ℚ)) (dIdx vIdx : Nat)
    (out : List String × List (List Cell))
    (hd : findDateCol columns = some dIdx)
    (hv : findValueCol (findDateCol columns) columns rows = some vIdx)
    (hm : mergeForecast columns rows preds = some out)
    (hwf : ∀ row ∈ rows, row.length = columns.length) :
    out.2.length ≤ rows.length + preds.length ∧
    ((rows.map (fun r => cellAt r dIdx)).Nodup →
      (preds.map Prod.fst).Nodup →
      (out.2.map (fun r => cellAt r dIdx)).Nodup) := by
  have hv' : findValueCol (some dIdx) columns rows = some vIdx := by
    rw [hd] at hv
    exact hv
  have hout : out = mergeWith dIdx vIdx columns rows preds := by
    unfold mergeForecast at hm
    rw [hd, hv'] at hm
    exact (Option.some.inj hm).symm
  subst hout
  have dlt : dIdx < columns.length := findDateCol_lt hd
  have hfcne : (columns ++ ["Forecast"]).length - 1 ≠ dIdx := by
    simp only [List.length_append, List.length_cons, List.length_nil]
    omega
  constructor
  · show (histRowsWithForecast dIdx vIdx
        ((columns ++ ["Forecast"]).length - 1) rows ++
      (preds.filter (fun p =>
          !((existingDates dIdx vIdx rows).contains (Cell.str p.1)))).map
        (predRow dIdx ((columns ++ ["Forecast"]).length - 1)
          (columns ++ ["Forecast"]).length)).length ≤
      rows.length + preds.length
    rw [List.length_append, histRowsWithForecast,
      withLastForecast_length, List.length_map, List.length_map]
    have h1 : (validHistoricalRows dIdx vIdx rows).length ≤ rows.length :=
      List.length_filter_le _ rows
    have h2 := List.length_filter_le
      (fun p => !((existingDates dIdx vIdx rows).contains (Cell.str p.1)))
      preds
    omega
  · intro hnr hnp
    show ((histRowsWithForecast dIdx vIdx
        ((columns ++ ["Forecast"]).length - 1) rows ++
      (preds.filter (fun p =>
          !((existingDates dIdx vIdx rows).contains (Cell.str p.1)))).map
        (predRow dIdx ((columns ++ ["Forecast"]).length - 1)
          (columns ++ ["Forecast"]).length)).map
        (fun r => cellAt r dIdx)).Nodup
    rw [List.map_append]
    have hdatesL : (histRowsWithForecast dIdx vIdx
        ((columns ++ ["Forecast"]).length - 1) rows).map
          (fun r => cellAt r dIdx) = existingDates dIdx vIdx rows := by
      unfold histRowsWithForecast
      rw [withLastForecast_map_dates hfcne, List.map_map]
      unfold existingDates
      apply List.map_congr_left
      intro row hrow
      have hrow' : row ∈ rows := List.mem_of_mem_filter hrow
      have hlen : dIdx < row.length := by
        rw [hwf row hrow']
        exact dlt
      exact cellAt_append_left hlen
    have hdatesR : ((preds.filter (fun p =>
          !((existingDates dIdx vIdx rows).contains (Cell.str p.1)))).map
        (predRow dIdx ((columns ++ ["Forecast"]).length - 1)
          (columns ++ ["Forecast"]).length)).map (fun r => cellAt r dIdx) =
        (preds.filter (fun p =>
          !((existingDates dIdx vIdx rows).contains (Cell.str p.1)))).map
          (fun p => Cell.str p.1) := by
      rw [List.map_map]
      apply List.map_congr_left
      intro p hp
      show cellAt (predRow dIdx ((columns ++ ["Forecast"]).length - 1)
        (columns ++ ["Forecast"]).length p) dIdx = Cell.str p.1
      apply cellAt_predRow_date p hfcne
      simp only [List.length_append, List.length_cons, List.length_nil]
      omega
    rw [hdatesL, hdatesR]
    apply List.Nodup.append
    · exact hnr.sublist (List.Sublist.map _ (List.filter_sublist rows))
    · have hrw : (preds.filter (fun p =>
          !((existingDates dIdx vIdx rows).contains (Cell.str p.1)))).map
            (fun p => Cell.str p.1) =
          ((preds.filter (fun p =>
            !((existingDates dIdx vIdx rows).contains
              (Cell.str p.1)))).map Prod.fst).map Cell.str := by
        rw [List.map_map]
        rfl
      rw [hrw]
      apply List.Nodup.map
      · intro a b hab
        exact Cell.str.inj hab
      · exact hnp.sublist (List.Sublist.map _ (List.filter_sublist preds))
    · intro a haL haR
      obtain ⟨p, hp, hpa⟩ := List.mem_map.mp haR
      have hq := (List.mem_filter.mp hp).2
      rw [← hpa] at haL
      have hcontains : (existingDates dIdx vIdx rows).contains
          (Cell.str p.1) = true := (cell_contains_iff _ _).mpr haL
      rw [hcontains] at hq
      exact Bool.false_ne_true (by simp at hq)

/-- Witness for `merge_rowcount_nodup` at the concrete scenario of claim C7:
three merged rows out of two historical rows and two predictions, with
pairwise distinct dates. -/
theorem merge_rowcount_nodup_wit :
    (mergeForecast ["date", "value"]
      [[Cell.str "2025-01-01", Cell.num 100],
       [Cell.str "2025-01-02", Cell.num 110]]
      [("2025-01-02", 999), ("2025-01-03", 120)]).isSome = true ∧
    ((mergeForecast ["date", "value"]
      [[Cell.str "2025-01-01", Cell.num 100],
       [Cell.str "2025-01-02", Cell.num 110]]
      [("2025-01-02", 999), ("2025-01-03", 120)]).getD ([], [])).2.length ≤
      2 + 2 ∧
    ((((mergeForecast ["date", "value"]
      [[Cell.str "2025-01-01", Cell.num 100],
       [Cell.str "2025-01-02", Cell.num 110]]
      [("2025-01-02", 999), ("2025-01-03", 120)]).getD ([], [])).2.map
        (fun r => cellAt r 0)).Nodup) := by
  have h := merge_rowcount_nodup ["date", "value"]
    [[Cell.str "2025-01-01", Cell.num 100],
     [Cell.str "2025-01-02", Cell.num 110]]
    [("2025-01-02", 999), ("2025-01-03", 120)] 0 1
    ((mergeForecast ["date", "value"]
      [[Cell.str "2025-01-01", Cell.num 100],
       [Cell.str "2025-01-02", Cell.num 110]]
      [("2025-01-02", 999), ("2025-01-03", 120)]).getD ([], []))
    (by decide) (by decide) (by decide) (by decide)
  exact ⟨by decide, by simpa using h.1, h.2 (by decide) (by decide)⟩

/-! ### calculateForecast linear-regression fallback (src/unnamed/part_002
lines 224-292) -/

/-- The result of the regression core: ordinary-least-squares slope and
intercept, the average inter-point interval, and the `periods` extrapolated
`(timestamp, value)` points. -/
structure RegResult where
  slope : ℚ
  intercept : ℚ
  avgInterval : ℚ
  preds : List (ℚ × ℚ)
deriving DecidableEq

/-- The denominator `n * sumXX - sumX * sumX` of the least-squares slope in
`calculateForecast`. -/
def regDenom (pts : List (ℚ × ℚ)) : ℚ :=
  (pts.length : ℚ) * (pts.map (fun p => p.1 * p.1)).sum -
    (pts.map (fun p => p.1)).sum * (pts.map (fun p => p.1)).sum

/-- The numeric core of `calculateForecast` from the point where the usable
`dataPoints` have been formed (each `(x, y)` is a numeric timestamp
`new Date(dateStr).getTime()` paired with a parsed value): return `null` on
fewer than 2 points, else sort ascending by timestamp (JS `sort` with a
numeric comparator is stable ascending), compute the least-squares slope and
intercept, the average interval `(last.x - first.x) / (n - 1)`, and `periods`
future points stepping `avgInterval` from the last timestamp with value
`slope * x + intercept`.  Arithmetic is exact rational; the zero-denominator
slope division that JS turns into `NaN` is exposed by `regDenom`. -/
def calculateForecastPoints (dataPoints : List (ℚ × ℚ)) (periods : Nat) :
    Option RegResult :=
  if dataPoints.length < 2 then none
  else
    let pts := dataPoints.mergeSort (fun a b => a.1 ≤ b.1)
    let n : ℚ := (pts.length : ℚ)
    let sumX := (pts.map (fun p => p.1)).sum
    let sumY := (pts.map (fun p => p.2)).sum
    let sumXY := (pts.map (fun p => p.1 * p.2)).sum
    let sumXX := (pts.map (fun p => p.1 * p.1)).sum
    let slope := (n * sumXY - sumX * sumY) / (n * sumXX - sumX * sumX)
    let intercept := (sumY - slope * sumX) / n
    let lastX := (pts.getLastD (0, 0)).1
    let avgInterval := (lastX - (pts.headD (0, 0)).1) / (n - 1)
    some
      { slope := slope,
        intercept := intercept,
        avgInterval := avgInterval,
        preds := (List.range periods).map (fun i =>
          let x := lastX + ((i : ℚ) + 1) * avgInterval
          (x, slope * x + intercept)) }

/-- Claim C9: on the equally spaced points `(0, 10), (1, 20), (2, 30)` with
horizon 2, the regression core computes slope 10, intercept 10, average
interval 1, and extrapolates exactly the two future points `(3, 40)` and
`(4, 50)`. -/
theorem forecast_linear_concrete :
    calculateForecastPoints [(0, 10), (1, 20), (2, 30)] 2 =
      some { slope := 10, intercept := 10, avgInterval := 1,
             preds := [(3, 40), (4, 50)] } := by
  unfold calculateForecastPoints
  rw [if_neg (by norm_num)]
  rw [List.mergeSort_of_sorted (by norm_num [List.pairwise_cons])]
  norm_num [List.range_succ, Prod.ext_iff]

/-- Claim C8, the code's divergence from it: the regression core guards only
against fewer than 2 usable points; two points with the same timestamp (for
example a duplicated date) pass the guard and reach the slope division with a
zero denominator — JS computes `0/0 = NaN` there instead of failing with an
insufficient-data outcome.  With two usable equal-`x` points the result is
`some` (not the `null` failure), and its denominator is zero. -/
theorem forecast_zero_variance_bug :
    regDenom [((5 : ℚ), 10), ((5 : ℚ), 20)] = 0 ∧
    calculateForecastPoints [((5 : ℚ), 10), ((5 : ℚ), 20)] 1 ≠ none ∧
    calculateForecastPoints [((5 : ℚ), 10)] 1 = none := by
  refine ⟨by norm_num [regDenom], ?_, by norm_num [calculateForecastPoints]⟩
  unfold calculateForecastPoints
  rw [if_neg (by norm_num)]
  simp

end AgentMark
